import Mathlib

/-!
Verification of `lux_ai/nns/models.py` (DictActor, ValueActivation,
BasicActorCriticNetwork) against its natural-language specification.

The PyTorch code is shallowly embedded: tensors are a shape (a list of
dimension sizes, row-major) together with flattened data.  Float tensors are
modelled with rational data (all layers except the softmax-based
`ValueActivation` are rational arithmetic); the softmax uses real exponentials.
Integer (action) tensors carry natural-number data.  `gym.spaces.MultiDiscrete`
is modelled by its `nvec` array (shape plus flattened entries, with the gym
constructor invariants that entries are positive and the count matches the
shape product).
-/

set_option maxRecDepth 4000

namespace LuxModels

/-- A float tensor: row-major shape and flattened rational data. -/
structure Tensor where
  shape : List Nat
  data : List ℚ
deriving DecidableEq

/-- An integer tensor (e.g. sampled/argmaxed action indices). -/
structure TensorN where
  shape : List Nat
  data : List Nat
deriving DecidableEq

/-- A real-valued tensor, used for the output of `ValueActivation`
(whose softmax involves real exponentials). -/
structure TensorR where
  shape : List Nat
  data : List ℝ

/-- Row `i` of a flattened 2-d tensor whose rows have length `n`. -/
def rowOf (n : Nat) (l : List ℚ) (i : Nat) : List ℚ :=
  (l.drop (i * n)).take n

/-- Split flattened data into consecutive rows of length `n`
(the rows of the last tensor dimension). -/
def chunks {α : Type} (n : Nat) (l : List α) : List (List α) :=
  (List.range (l.length / n)).map (fun i => (l.drop (i * n)).take n)

/-- Auxiliary loop for `argmaxList`: index `i` is the index of the next
element, `best`/`bv` the best index and value so far. -/
def argmaxAux : List ℚ → Nat → Nat → ℚ → Nat
  | [], _, best, _ => best
  | a :: t, i, best, bv =>
    if bv < a then argmaxAux t (i + 1) i a else argmaxAux t (i + 1) best bv

/-- `torch.argmax` over a single row of logits (first maximal index). -/
def argmaxList : List ℚ → Nat
  | [] => 0
  | a :: t => argmaxAux t 1 0 a

theorem argmaxAux_lt (t : List ℚ) : ∀ (i best : Nat) (bv : ℚ), best < i →
    argmaxAux t i best bv < i + t.length := by
  induction t with
  | nil => intro i best bv h; simpa [argmaxAux] using h.trans_le (Nat.le_refl i)
  | cons a t ih =>
    intro i best bv h
    simp only [argmaxAux]
    by_cases hlt : bv < a
    · rw [if_pos hlt]
      have := ih (i + 1) i a (Nat.lt_succ_self i)
      simpa [Nat.add_assoc, Nat.add_comm 1 t.length] using this
    · rw [if_neg hlt]
      have := ih (i + 1) best bv (h.trans (Nat.lt_succ_self i))
      simpa [Nat.add_assoc, Nat.add_comm 1 t.length] using this

theorem argmaxList_lt (l : List ℚ) (h : l ≠ []) : argmaxList l < l.length := by
  cases l with
  | nil => exact absurd rfl h
  | cons a t =>
    have h1 : argmaxAux t 1 0 a < 1 + t.length := argmaxAux_lt t 1 0 a Nat.zero_lt_one
    simpa [argmaxList, List.length_cons, Nat.add_comm] using h1

/-- `torch.multinomial(probs, 1)` for one row, modelled as inverse-CDF
sampling: the random draw `r` is consumed against the cumulative weights;
if the weights do not cover `r` the last index is returned. -/
noncomputable def cdfSample : List ℝ → ℝ → Nat
  | [], _ => 0
  | [_], _ => 0
  | a :: b :: t, r => if r < a then 0 else cdfSample (b :: t) (r - a) + 1

theorem cdfSample_lt (w : List ℝ) : ∀ r : ℝ, w ≠ [] → cdfSample w r < w.length := by
  induction w with
  | nil => intro r h; exact absurd rfl h
  | cons a w ih =>
    intro r _
    cases w with
    | nil => simp [cdfSample]
    | cons b t =>
      simp only [cdfSample]
      by_cases hr : r < a
      · rw [if_pos hr]; exact Nat.succ_pos _
      · rw [if_neg hr]
        have := ih (r - a) (List.cons_ne_nil b t)
        simpa [List.length_cons] using Nat.succ_lt_succ this

/-- `F.softmax(l, dim=-1)` on one row of reals. -/
noncomputable def softmaxR (l : List ℝ) : List ℝ :=
  l.map (fun x => Real.exp x / (l.map Real.exp).sum)

/-- `ValueActivation.forward` on one row along the softmax dimension:
`2 * softmax(x) - 1` ("Rescale to [-1, 1]"). -/
noncomputable def valueActivationRow (l : List ℝ) : List ℝ :=
  (softmaxR l).map (fun s => 2 * s - 1)

theorem valueActivationRow_eq (l : List ℝ) :
    valueActivationRow l =
      l.map (fun x => 2 * (Real.exp x / (l.map Real.exp).sum) - 1) := by
  simp [valueActivationRow, softmaxR]

theorem valueActivationRow_pair (a b : ℝ) :
    valueActivationRow [a, b] =
      [2 * (Real.exp a / (Real.exp a + Real.exp b)) - 1,
       2 * (Real.exp b / (Real.exp a + Real.exp b)) - 1] := by
  simp [valueActivationRow, softmaxR]

theorem valueActivationRow_pair_mem_bounds (a b : ℝ) :
    ∀ v ∈ valueActivationRow [a, b], -1 < v ∧ v < 1 := by
  have hS : (0 : ℝ) < Real.exp a + Real.exp b :=
    add_pos (Real.exp_pos a) (Real.exp_pos b)
  have key : ∀ x y : ℝ, 0 < Real.exp x → Real.exp x < Real.exp a + Real.exp b →
      -1 < 2 * (Real.exp x / (Real.exp a + Real.exp b)) - 1 ∧
        2 * (Real.exp x / (Real.exp a + Real.exp b)) - 1 < 1 := by
    intro x y hx hxS
    constructor
    · have h0 : 0 < Real.exp x / (Real.exp a + Real.exp b) := div_pos hx hS
      nlinarith
    · have h1 : Real.exp x / (Real.exp a + Real.exp b) < 1 :=
        (div_lt_one hS).mpr hxS
      nlinarith
  intro v hv
  rw [valueActivationRow_pair] at hv
  simp only [List.mem_cons, List.not_mem_nil, or_false] at hv
  rcases hv with hv | hv
  · subst hv
    exact key a a (Real.exp_pos a) (by nlinarith [Real.exp_pos b])
  · subst hv
    exact key b b (Real.exp_pos b) (by nlinarith [Real.exp_pos a])

theorem valueActivationRow_pair_sum (a b : ℝ) :
    (valueActivationRow [a, b]).sum = 0 := by
  have hS : (0 : ℝ) < Real.exp a + Real.exp b :=
    add_pos (Real.exp_pos a) (Real.exp_pos b)
  rw [valueActivationRow_pair]
  have : Real.exp a / (Real.exp a + Real.exp b) +
      Real.exp b / (Real.exp a + Real.exp b) = 1 := by
    field_simp
  simp only [List.sum_cons, List.sum_nil]
  nlinarith [this]

theorem valueActivationRow_length (l : List ℝ) :
    (valueActivationRow l).length = l.length := by
  simp [valueActivationRow, softmaxR]

/-- `gym.spaces.MultiDiscrete`: the `nvec` array, kept as its shape and its
flattened entries.  `hlen` records that the flattened entry count matches the
shape, and `hpos` the gym constructor invariant that all counts are positive. -/
structure MultiDiscrete where
  shape : List Nat
  nvec : List Nat
  hlen : nvec.length = shape.prod
  hpos : ∀ v ∈ nvec, 0 < v

/-- A gym space as far as `DictActor.__init__` inspects it: either a
`MultiDiscrete`, or any other kind of space (of which only the shape is
relevant to the validation messages). -/
inductive GymSpace where
  | multiDiscrete (m : MultiDiscrete)
  | other (shape : List Nat)

def GymSpace.shapeOf : GymSpace → List Nat
  | .multiDiscrete m => m.shape
  | .other s => s

def GymSpace.nvecOf : GymSpace → List Nat
  | .multiDiscrete m => m.nvec
  | .other _ => []

def GymSpace.isMultiDiscrete : GymSpace → Bool
  | .multiDiscrete _ => true
  | .other _ => false

/-- `space.nvec.min()` on the nonempty arrays the constructor evaluates it
on.  On a zero-size array `np.min` raises a `ValueError` ("zero-size array to
reduction operation minimum which has no identity"); that error path is
modelled explicitly in `DictActor.init`, which raises before this function's
(never observed) default value 0 for the empty list could matter. -/
def nvecMin : List Nat → Nat
  | [] => 0
  | a :: t => List.foldl min a t

/-- `space.nvec.max()`, with the same conventions as `nvecMin`: the numpy
zero-size `ValueError` is modelled in `DictActor.init`, so the empty case's
default is never observed. -/
def nvecMax : List Nat → Nat
  | [] => 0
  | a :: t => List.foldl max a t

theorem foldl_min_pos (t : List Nat) : ∀ a : Nat, 0 < a → (∀ v ∈ t, 0 < v) →
    0 < List.foldl min a t := by
  induction t with
  | nil => intro a ha _; simpa using ha
  | cons b t ih =>
    intro a ha hmem
    simp only [List.foldl_cons]
    exact ih (min a b) (lt_min ha (hmem b (List.mem_cons_self b t)))
      (fun v hv => hmem v (List.mem_cons_of_mem b hv))

theorem nvecMin_pos (m : MultiDiscrete) (h : m.nvec ≠ []) : 0 < nvecMin m.nvec := by
  cases hm : m.nvec with
  | nil => exact absurd hm h
  | cons a t =>
    have hpos := m.hpos
    rw [hm] at hpos
    exact foldl_min_pos t a (hpos a (List.mem_cons_self a t))
      (fun v hv => hpos v (List.mem_cons_of_mem a hv))

/-- Python's `space.shape[:-2]` (all but the last two dimensions). -/
def planeShape (s : GymSpace) : List Nat :=
  s.shapeOf.take (s.shapeOf.length - 2)

/-- An `nn.Conv2d(in_channels, out_channels, (1, 1))` module:
the channel counts fixed at construction, and its weight and bias. -/
structure Conv2dM where
  in_channels : Nat
  out_channels : Nat
  weight : List (List ℚ)
  bias : List ℚ
deriving DecidableEq

/-- An `nn.Linear(in_features, out_features)` module. -/
structure LinearM where
  in_features : Nat
  out_features : Nat
  weight : List (List ℚ)
  bias : List ℚ
deriving DecidableEq

/-- One output entry of a 1x1 `Conv2d` on an input of spatial size `hw`,
at flat output index `j` of a `(batch, out_channels, h, w)` tensor. -/
def convEntry (m : Conv2dM) (hw : Nat) (data : List ℚ) (j : Nat) : ℚ :=
  let bi := j / (m.out_channels * hw)
  let o := (j / hw) % m.out_channels
  let p := j % hw
  m.bias.getD o 0 +
    List.foldl
      (fun s ci => s + (m.weight.getD o []).getD ci 0 *
        data.getD ((bi * m.in_channels + ci) * hw + p) 0)
      0 (List.range m.in_channels)

/-- Applying a 1x1 `Conv2d` to a `(b, c, h, w)` tensor; `none` models the
framework error on a rank or channel mismatch. -/
def Conv2dM.apply (m : Conv2dM) (t : Tensor) : Option Tensor :=
  match t.shape with
  | [b, c, h, w] =>
    if c = m.in_channels then
      some ⟨[b, m.out_channels, h, w],
        List.ofFn (fun j : Fin (([b, m.out_channels, h, w] : List Nat).prod) =>
          convEntry m (h * w) t.data j.val)⟩
    else none
  | _ => none

/-- One output entry of `nn.Linear` on flattened `(batch, in_features)` data. -/
def linEntry (m : LinearM) (data : List ℚ) (j : Nat) : ℚ :=
  let bi := j / m.out_features
  let o := j % m.out_features
  m.bias.getD o 0 +
    List.foldl
      (fun s i => s + (m.weight.getD o []).getD i 0 *
        data.getD (bi * m.in_features + i) 0)
      0 (List.range m.in_features)

/-- `torch.Tensor.view(*s)`: reinterpret the data with a new shape; errors
(`none`) unless the element counts agree. -/
def Tensor.view (t : Tensor) (s : List Nat) : Option Tensor :=
  if s.prod = t.shape.prod then some ⟨s, t.data⟩ else none

/-- `torch.Tensor.view(-1, n)`: the leading dimension is inferred; errors
unless `n` divides the element count. -/
def Tensor.viewNeg1 (t : Tensor) (n : Nat) : Option Tensor :=
  if n ≠ 0 ∧ n ∣ t.shape.prod then some ⟨[t.shape.prod / n, n], t.data⟩ else none

/-- `view` for integer tensors. -/
def TensorN.view (t : TensorN) (s : List Nat) : Option TensorN :=
  if s.prod = t.shape.prod then some ⟨s, t.data⟩ else none

/-- `logits.permute(0, 2, 3, 4, 5, 1).contiguous()` on a rank-6 tensor:
the logits dimension (dim 1) is moved to the end and the data is
materialised in the new row-major order. -/
def permuteMoveDim1Last (t : Tensor) : Option Tensor :=
  match t.shape with
  | [d0, d1, d2, d3, d4, d5] =>
    some ⟨[d0, d2, d3, d4, d5, d1],
      List.ofFn (fun j : Fin (([d0, d2, d3, d4, d5, d1] : List Nat).prod) =>
        let i1 := j.val % d1
        let j1 := j.val / d1
        let i5 := j1 % d5
        let j2 := j1 / d5
        let i4 := j2 % d4
        let j3 := j2 / d4
        let i3 := j3 % d3
        let j4 := j3 / d3
        let i2 := j4 % d2
        let i0 := j4 / d2
        t.data.getD (((((i0 * d1 + i1) * d2 + i2) * d3 + i3) * d4 + i4) * d5 + i5) 0)⟩
  | _ => none

/-- A layer of the `nn.Sequential` heads built by
`BasicActorCriticNetwork.__init__`: 1x1 convolutions, the
`actor_critic_activation` instances (an elementwise function, `nn.ReLU` by
default), `nn.AdaptiveAvgPool2d(1)`, `nn.Flatten` and `nn.Linear`. -/
inductive Layer where
  | conv2d (m : Conv2dM)
  | activation (f : ℚ → ℚ)
  | adaptiveAvgPool2d1
  | flatten
  | linear (m : LinearM)

/-- The forward computation of a single layer (`none` models a framework
shape error). -/
def applyLayer : Layer → Tensor → Option Tensor
  | .conv2d m, t => m.apply t
  | .activation f, t => some ⟨t.shape, t.data.map f⟩
  | .adaptiveAvgPool2d1, t =>
    match t.shape with
    | [b, c, h, w] =>
      some ⟨[b, c, 1, 1],
        List.ofFn (fun j : Fin (([b, c, 1, 1] : List Nat).prod) =>
          (List.foldl (fun s p => s + t.data.getD (j.val * (h * w) + p) 0)
            0 (List.range (h * w))) / ((h * w : Nat) : ℚ))⟩
    | _ => none
  | .flatten, t =>
    match t.shape with
    | b :: rest => some ⟨[b, rest.prod], t.data⟩
    | [] => none
  | .linear m, t =>
    match t.shape with
    | [b, f] =>
      if f = m.in_features then
        some ⟨[b, m.out_features],
          List.ofFn (fun j : Fin (([b, m.out_features] : List Nat).prod) =>
            linEntry m t.data j.val)⟩
      else none
    | _ => none

/-- `nn.Sequential`: apply the layers in order. -/
def runSeq : List Layer → Tensor → Option Tensor
  | [], t => some t
  | l :: ls, t => (applyLayer l t).bind (runSeq ls)

/-- `ValueActivation(dim=-1).forward` on a whole tensor (the default
`final_value_activation` of `BasicActorCriticNetwork`): `2 * softmax - 1`
applied along the last dimension. -/
noncomputable def valueActivation (t : Tensor) : TensorR :=
  let n := (t.shape.getLast?).getD 1
  ⟨t.shape,
    ((chunks n t.data).map
      (fun row => valueActivationRow (row.map (fun q : ℚ => (q : ℝ))))).flatten⟩

/-- The errors `DictActor.__init__` can raise: the explicit `ValueError`s of
its validation, or the `assert` on the stored action-plane shapes. -/
inductive InitError where
  | valueError (msg : String)
  | assertionError
deriving DecidableEq

/-- The state of a constructed `DictActor`: its `n_actions` and
`action_plane_shapes` dicts and the per-key 1x1 `Conv2d` actors. -/
structure DictActor where
  n_actions : List (String × Nat)
  action_plane_shapes : List (String × List Nat)
  actors : List (String × Conv2dM)
deriving DecidableEq

/-- The `nn.Conv2d(in_channels, n_act * np.prod(action_plane_shape), (1, 1))`
built for one action-space key (`convParams` supplies the framework's random
initialisation of weight and bias). -/
def mkActorConv (in_channels : Nat) (convParams : String → List (List ℚ) × List ℚ)
    (k : String) (s : GymSpace) : Conv2dM :=
  { in_channels := in_channels,
    out_channels := nvecMin s.nvecOf * (planeShape s).prod,
    weight := (convParams k).1,
    bias := (convParams k).2 }

/-- `DictActor.__init__`: validate the action space (three `ValueError`
checks, in program order), store `n_actions` and `action_plane_shapes`,
run the `assert` on the plane shapes, and build the per-key actors.

The third check's comprehension evaluates `space.nvec.min()` for every space
before `all(...)` runs; if any space has a zero-size `nvec`, numpy's
reduction raises a `ValueError` right there, before the uniformity of the
other spaces is ever compared.  That error path is the guard between the
second and third checks below. -/
def DictActor.init (in_channels : Nat) (action_space : List (String × GymSpace))
    (convParams : String → List (List ℚ) × List ℚ) : Except InitError DictActor :=
  if !(action_space.all (fun p => p.2.isMultiDiscrete)) then
    .error (.valueError "All action spaces must be MultiDiscrete")
  else if !(action_space.all (fun p => p.2.shapeOf.length == 4)) then
    .error (.valueError "All action spaces must have 4 dimensions")
  else if action_space.any (fun p => p.2.nvecOf.isEmpty) then
    .error (.valueError
      "zero-size array to reduction operation minimum which has no identity")
  else if !(action_space.all (fun p => nvecMin p.2.nvecOf == nvecMax p.2.nvecOf)) then
    .error (.valueError "Each action space must have the same number of actions throughout the space")
  else
    let n_actions := action_space.map (fun p => (p.1, nvecMin p.2.nvecOf))
    let action_plane_shapes := action_space.map (fun p => (p.1, planeShape p.2))
    if !(action_plane_shapes.all (fun p => p.2.length == 2)) then
      .error .assertionError
    else
      .ok { n_actions := n_actions,
            action_plane_shapes := action_plane_shapes,
            actors := action_space.map (fun p => (p.1, mkActorConv in_channels convParams p.1 p.2)) }

/-- `DictActor.logits_to_actions` at its call site (a 2-d `(N, n)` tensor of
per-row logits): multinomial sampling over the softmax row (keeping the
`num_samples=1` trailing dimension), or per-row argmax (no trailing
dimension).  `rng` supplies the sampler's random draws, one per row. -/
noncomputable def DictActor.logits_to_actions (t : Tensor) (sample : Bool)
    (rng : Nat → ℝ) : Option TensorN :=
  match t.shape with
  | [nrows, n] =>
    if sample then
      some ⟨[nrows, 1],
        (List.range nrows).map (fun i =>
          cdfSample (softmaxR ((rowOf n t.data i).map (fun q : ℚ => (q : ℝ)))) (rng i))⟩
    else
      some ⟨[nrows],
        (List.range nrows).map (fun i => argmaxList (rowOf n t.data i))⟩
  | _ => none

/-- The body of the per-key loop of `DictActor.forward`: look up `n_actions`
and `action_plane_shape`, apply the key's 1x1 convolution, reshape to
`(b, n_actions, *action_plane_shape, h, w)`, move the logits dimension to the
end, convert logits to actions and reshape them to
`(b, *action_plane_shape, h, w)`. -/
noncomputable def DictActor.actorStep (A : DictActor) (b h w : Nat) (x : Tensor)
    (sample : Bool) (rng : Nat → ℝ) (ka : String × Conv2dM) :
    Option (String × Tensor × TensorN) := do
  let n ← A.n_actions.lookup ka.1
  let aps ← A.action_plane_shapes.lookup ka.1
  let logits0 ← ka.2.apply x
  let logits1 ← logits0.view ([b, n] ++ aps ++ [h, w])
  let logits ← permuteMoveDim1Last logits1
  let flat ← logits.viewNeg1 n
  let acts0 ← DictActor.logits_to_actions flat sample rng
  let actions ← acts0.view ([b] ++ aps ++ [h, w])
  pure (ka.1, logits, actions)

/-- The `for key, actor in self.actors.items()` loop of `DictActor.forward`,
collecting the per-key results in order. -/
noncomputable def DictActor.forwardList (A : DictActor) (b h w : Nat) (x : Tensor)
    (sample : Bool) (rng : Nat → ℝ) :
    List (String × Conv2dM) → Option (List (String × Tensor × TensorN))
  | [] => some []
  | ka :: rest => do
    let o ← A.actorStep b h w x sample rng ka
    let os ← A.forwardList b h w x sample rng rest
    pure (o :: os)

/-- `DictActor.forward`: unpack `b, _, h, w = x.shape`, run the per-key loop
and return the `policy_logits_out` and `actions_out` dicts. -/
noncomputable def DictActor.forward (A : DictActor) (x : Tensor) (sample : Bool)
    (rng : Nat → ℝ) :
    Option (List (String × Tensor) × List (String × TensorN)) :=
  match x.shape with
  | [b, _, h, w] => do
    let outs ← A.forwardList b h w x sample rng A.actors
    pure (outs.map (fun o => (o.1, o.2.1)), outs.map (fun o => (o.1, o.2.2)))
  | _ => none

/-- The `for i in range(n_action_value_layers - 1)` loop of
`BasicActorCriticNetwork.__init__`: it appends a
`Conv2d(base_out_channels, base_out_channels, (1, 1))` followed by an
`actor_critic_activation()` instance for each `i`.  `supply i` is the
framework's random initialisation of the `i`-th convolution. -/
def convActLayers (base_out_channels : Nat) (act : ℚ → ℚ)
    (supply : Nat → List (List ℚ) × List ℚ) : Nat → List Layer
  | 0 => []
  | n + 1 =>
    convActLayers base_out_channels act supply n ++
      [Layer.conv2d ⟨base_out_channels, base_out_channels, (supply n).1, (supply n).2⟩,
       Layer.activation act]

/-- The output dict of `BasicActorCriticNetwork.forward`:
`dict(actions=..., policy_logits=..., baseline=...)`. -/
structure ForwardOut where
  actions : List (String × TensorN)
  policy_logits : List (String × Tensor)
  baseline : TensorR

/-- The state of a constructed `BasicActorCriticNetwork`.  `dict_input_layer`
is `DictInputLayer()` — modelled from the spec: its class lives in
`in_blocks.py`, which is not part of this snippet; per the spec it only
unpacks the input into the encoded game-state tensor and its input mask.
`base_model` is the externally supplied trunk.  `baseline_head` is the
`nn.Sequential` of `baseline_layers` up to (and excluding) the appended
`final_value_activation`, which is modelled separately as `valueActivation`
(its default value `ValueActivation(dim=-1)`) because its output is
real-valued. -/
structure BasicActorCriticNetwork (α : Type) where
  dict_input_layer : α → Tensor × Tensor
  base_model : Tensor × Tensor → Tensor × Tensor
  base_out_channels : Nat
  actor_base : List Layer
  actor : DictActor
  baseline_head : List Layer

/-- `BasicActorCriticNetwork.__init__` with the default
`actor_critic_activation`-style elementwise activation `act` and the default
`final_value_activation = ValueActivation(dim=-1)`: build the
`actor_base`/`baseline` conv-activation stacks, the `DictActor`, and append
pooling, flattening and the 2-output linear layer to the baseline head. -/
def BasicActorCriticNetwork.init {α : Type}
    (dil : α → Tensor × Tensor)
    (base_model : Tensor × Tensor → Tensor × Tensor)
    (base_out_channels : Nat)
    (action_space : List (String × GymSpace))
    (act : ℚ → ℚ)
    (n_action_value_layers : Nat)
    (actorSupply baselineSupply : Nat → List (List ℚ) × List ℚ)
    (actorConvParams : String → List (List ℚ) × List ℚ)
    (linW : List (List ℚ)) (linB : List ℚ) :
    Except InitError (BasicActorCriticNetwork α) := do
  let actor ← DictActor.init base_out_channels action_space actorConvParams
  .ok { dict_input_layer := dil,
        base_model := base_model,
        base_out_channels := base_out_channels,
        actor_base := convActLayers base_out_channels act actorSupply (n_action_value_layers - 1),
        actor := actor,
        baseline_head :=
          convActLayers base_out_channels act baselineSupply (n_action_value_layers - 1) ++
            [Layer.adaptiveAvgPool2d1, Layer.flatten,
             Layer.linear ⟨base_out_channels, 2, linW, linB⟩] }

/-- `BasicActorCriticNetwork.forward`: unpack the input dict, run the base
model, feed the shared trunk output to the actor head
(`self.actor(self.actor_base(base_out), sample)`) and to the baseline head
(`self.baseline(base_out)`), and return the output dict. -/
noncomputable def BasicActorCriticNetwork.forward {α : Type}
    (net : BasicActorCriticNetwork α) (x : α) (sample : Bool) (rng : Nat → ℝ) :
    Option ForwardOut :=
  let xm := net.dict_input_layer x
  let base_out := (net.base_model xm).1
  do
    let actor_in ← runSeq net.actor_base base_out
    let pa ← net.actor.forward actor_in sample rng
    let pre ← runSeq net.baseline_head base_out
    pure { actions := pa.2, policy_logits := pa.1, baseline := valueActivation pre }

/-- `sample_actions`: `forward` with `sample=True`. -/
noncomputable def BasicActorCriticNetwork.sample_actions {α : Type}
    (net : BasicActorCriticNetwork α) (x : α) (rng : Nat → ℝ) : Option ForwardOut :=
  net.forward x true rng

/-- `select_best_actions`: `forward` with `sample=False`. -/
noncomputable def BasicActorCriticNetwork.select_best_actions {α : Type}
    (net : BasicActorCriticNetwork α) (x : α) (rng : Nat → ℝ) : Option ForwardOut :=
  net.forward x false rng

/-- State-passing embedding of a `forward` method call: the Python body of
`forward` (and of the `DictActor`/head forwards it calls) contains only reads
of `self` and submodule calls, never an assignment to `self` or its fields,
so the post-state of the module is its pre-state. -/
noncomputable def BasicActorCriticNetwork.forwardS {α : Type}
    (net : BasicActorCriticNetwork α) (x : α) (sample : Bool) (rng : Nat → ℝ) :
    Option ForwardOut × BasicActorCriticNetwork α :=
  (net.forward x sample rng, net)

/-- The first validation condition: every entry is a `MultiDiscrete`. -/
def allMultiDiscrete (sp : List (String × GymSpace)) : Prop :=
  ∀ p ∈ sp, p.2.isMultiDiscrete = true

/-- The second validation condition: every entry's shape is 4-dimensional. -/
def allShape4 (sp : List (String × GymSpace)) : Prop :=
  ∀ p ∈ sp, p.2.shapeOf.length = 4

/-- The third validation condition: within each entry, `nvec.min() == nvec.max()`. -/
def allUniform (sp : List (String × GymSpace)) : Prop :=
  ∀ p ∈ sp, nvecMin p.2.nvecOf = nvecMax p.2.nvecOf

/-- The implicit condition of the third check: `nvec.min()`/`nvec.max()` only
evaluate (rather than raise numpy's zero-size `ValueError`) when every
entry's `nvec` is nonempty. -/
def allNvecNonempty (sp : List (String × GymSpace)) : Prop :=
  ∀ p ∈ sp, p.2.nvecOf ≠ []

instance (sp : List (String × GymSpace)) : Decidable (allMultiDiscrete sp) := by
  unfold allMultiDiscrete; infer_instance

instance (sp : List (String × GymSpace)) : Decidable (allShape4 sp) := by
  unfold allShape4; infer_instance

instance (sp : List (String × GymSpace)) : Decidable (allUniform sp) := by
  unfold allUniform; infer_instance

instance (sp : List (String × GymSpace)) : Decidable (allNvecNonempty sp) := by
  unfold allNvecNonempty; infer_instance

theorem planeShape_length_two (s : GymSpace) (h : s.shapeOf.length = 4) :
    (planeShape s).length = 2 := by
  simp [planeShape, h]

theorem init_ok_of_checks (in_ch : Nat) (sp : List (String × GymSpace))
    (cps : String → List (List ℚ) × List ℚ)
    (h1 : allMultiDiscrete sp) (h2 : allShape4 sp) (hne : allNvecNonempty sp)
    (h3 : allUniform sp) :
    DictActor.init in_ch sp cps =
      .ok ⟨sp.map (fun p => (p.1, nvecMin p.2.nvecOf)),
           sp.map (fun p => (p.1, planeShape p.2)),
           sp.map (fun p => (p.1, mkActorConv in_ch cps p.1 p.2))⟩ := by
  have b1 : sp.all (fun p => p.2.isMultiDiscrete) = true :=
    List.all_eq_true.mpr h1
  have b2 : sp.all (fun p => p.2.shapeOf.length == 4) = true :=
    List.all_eq_true.mpr (fun p hp => beq_iff_eq.mpr (h2 p hp))
  have bE : sp.any (fun p => p.2.nvecOf.isEmpty) = false := by
    by_contra hb
    obtain ⟨p, hp, hpe⟩ := List.any_eq_true.mp (eq_true_of_ne_false hb)
    exact hne p hp (by simpa using hpe)
  have b3 : sp.all (fun p => nvecMin p.2.nvecOf == nvecMax p.2.nvecOf) = true :=
    List.all_eq_true.mpr (fun p hp => beq_iff_eq.mpr (h3 p hp))
  have b4 : (sp.map (fun p => (p.1, planeShape p.2))).all (fun p => p.2.length == 2) = true := by
    refine List.all_eq_true.mpr ?_
    intro q hq
    obtain ⟨p, hp, rfl⟩ := List.mem_map.mp hq
    exact beq_iff_eq.mpr (planeShape_length_two p.2 (h2 p hp))
  simp [DictActor.init, b1, b2, bE, b3, b4]

theorem init_error_of_not_checks (in_ch : Nat) (sp : List (String × GymSpace))
    (cps : String → List (List ℚ) × List ℚ)
    (h : ¬ (allMultiDiscrete sp ∧ allShape4 sp ∧ allNvecNonempty sp ∧ allUniform sp)) :
    ∃ msg, DictActor.init in_ch sp cps = .error (.valueError msg) := by
  by_cases h1 : allMultiDiscrete sp
  · by_cases h2 : allShape4 sp
    · by_cases hne : allNvecNonempty sp
      · by_cases h3 : allUniform sp
        · exact absurd ⟨h1, h2, hne, h3⟩ h
        · refine ⟨"Each action space must have the same number of actions throughout the space", ?_⟩
          have b1 : sp.all (fun p => p.2.isMultiDiscrete) = true :=
            List.all_eq_true.mpr h1
          have b2 : sp.all (fun p => p.2.shapeOf.length == 4) = true :=
            List.all_eq_true.mpr (fun p hp => beq_iff_eq.mpr (h2 p hp))
          have bE : sp.any (fun p => p.2.nvecOf.isEmpty) = false := by
            by_contra hb
            obtain ⟨p, hp, hpe⟩ := List.any_eq_true.mp (eq_true_of_ne_false hb)
            exact hne p hp (by simpa using hpe)
          have b3 : sp.all (fun p => nvecMin p.2.nvecOf == nvecMax p.2.nvecOf) = false := by
            by_contra hb
            exact h3 (fun p hp =>
              beq_iff_eq.mp (List.all_eq_true.mp (eq_true_of_ne_false hb) p hp))
          simp [DictActor.init, b1, b2, bE, b3]
      · refine ⟨"zero-size array to reduction operation minimum which has no identity", ?_⟩
        have b1 : sp.all (fun p => p.2.isMultiDiscrete) = true :=
          List.all_eq_true.mpr h1
        have b2 : sp.all (fun p => p.2.shapeOf.length == 4) = true :=
          List.all_eq_true.mpr (fun p hp => beq_iff_eq.mpr (h2 p hp))
        have bE : sp.any (fun p => p.2.nvecOf.isEmpty) = true := by
          rw [List.any_eq_true]
          unfold allNvecNonempty at hne
          push_neg at hne
          obtain ⟨p, hp, hpe⟩ := hne
          exact ⟨p, hp, by simp [hpe]⟩
        simp [DictActor.init, b1, b2, bE]
    · refine ⟨"All action spaces must have 4 dimensions", ?_⟩
      have b1 : sp.all (fun p => p.2.isMultiDiscrete) = true :=
        List.all_eq_true.mpr h1
      have b2 : sp.all (fun p => p.2.shapeOf.length == 4) = false := by
        by_contra hb
        exact h2 (fun p hp =>
          beq_iff_eq.mp (List.all_eq_true.mp (eq_true_of_ne_false hb) p hp))
      simp [DictActor.init, b1, b2]
  · refine ⟨"All action spaces must be MultiDiscrete", ?_⟩
    have b1 : sp.all (fun p => p.2.isMultiDiscrete) = false := by
      by_contra hb
      exact h1 (fun p hp => List.all_eq_true.mp (eq_true_of_ne_false hb) p hp)
    simp [DictActor.init, b1]

theorem init_ok_elim (in_ch : Nat) (sp : List (String × GymSpace))
    (cps : String → List (List ℚ) × List ℚ) (A : DictActor)
    (h : DictActor.init in_ch sp cps = .ok A) :
    allMultiDiscrete sp ∧ allShape4 sp ∧ allNvecNonempty sp ∧ allUniform sp ∧
      A = ⟨sp.map (fun p => (p.1, nvecMin p.2.nvecOf)),
           sp.map (fun p => (p.1, planeShape p.2)),
           sp.map (fun p => (p.1, mkActorConv in_ch cps p.1 p.2))⟩ := by
  by_cases hc : allMultiDiscrete sp ∧ allShape4 sp ∧ allNvecNonempty sp ∧ allUniform sp
  · obtain ⟨h1, h2, hne, h3⟩ := hc
    have heq := init_ok_of_checks in_ch sp cps h1 h2 hne h3
    rw [heq] at h
    injection h with h4
    exact ⟨h1, h2, hne, h3, h4.symm⟩
  · obtain ⟨msg, hmsg⟩ := init_error_of_not_checks in_ch sp cps hc
    rw [hmsg] at h
    exact absurd h (by simp)

/-- A trivial parameter supply used by the construction-time results below
(zero-filled weights via the `getD` defaults). -/
def cpsC : String → List (List ℚ) × List ℚ := fun _ => ([], [])

/-- A rank-4 `MultiDiscrete` whose `nvec` is a zero-size array (shape
`(0, 2, 1, 1)`).  This is constructible in gym: the constructor's
`(nvec > 0).all()` assert is vacuously true on an empty array. -/
def mdE : MultiDiscrete := ⟨[0, 2, 1, 1], [], by decide, by decide⟩

/-- A one-key action space containing the zero-size `MultiDiscrete`. -/
def spE : List (String × GymSpace) := [("worker", GymSpace.multiDiscrete mdE)]

/-- Claim C2 counterexample: the zero-size-`nvec` action space satisfies all
three conditions named by the claim — the entry is a `MultiDiscrete`, its
shape is 4-dimensional, and no two of its (zero) positions carry differing
action counts — yet `DictActor.__init__` raises a `ValueError`: the third
check's comprehension calls `nvec.min()` on a zero-size array and numpy's
reduction raises.  So the claimed "if and only if" (and "construction
succeeds without raising") is false. -/
theorem claim_C2_counterexample :
    allMultiDiscrete spE ∧ allShape4 spE ∧ allUniform spE ∧
      DictActor.init 1 spE cpsC =
        .error (.valueError
          "zero-size array to reduction operation minimum which has no identity") :=
  ⟨by decide, by decide, by decide, rfl⟩

/-- Claim C2 (amended): `DictActor.__init__` raises a `ValueError` at
construction time if and only if some action-space entry is not
`MultiDiscrete`, or has a shape that is not 4-dimensional, or has a
zero-size `nvec` (numpy's `min()` raises on the empty reduction inside the
third check), or has `nvec.min() != nvec.max()`; when every entry is a
`MultiDiscrete` with a 4-dimensional shape and a nonempty `nvec` with
`nvec.min() == nvec.max()`, construction succeeds without raising. -/
theorem claim_C2_amended_init_valueError_iff (in_ch : Nat)
    (sp : List (String × GymSpace)) (cps : String → List (List ℚ) × List ℚ) :
    ((∃ msg, DictActor.init in_ch sp cps = .error (.valueError msg)) ↔
      ¬ (allMultiDiscrete sp ∧ allShape4 sp ∧ allNvecNonempty sp ∧ allUniform sp)) ∧
    ((allMultiDiscrete sp ∧ allShape4 sp ∧ allNvecNonempty sp ∧ allUniform sp) →
      ∃ A, DictActor.init in_ch sp cps = .ok A) := by
  constructor
  · constructor
    · rintro ⟨msg, hmsg⟩ ⟨h1, h2, hne, h3⟩
      rw [init_ok_of_checks in_ch sp cps h1 h2 hne h3] at hmsg
      cases hmsg
    · exact init_error_of_not_checks in_ch sp cps
  · rintro ⟨h1, h2, hne, h3⟩
    exact ⟨_, init_ok_of_checks in_ch sp cps h1 h2 hne h3⟩

/-- Claim C6: whenever the explicit validation of `DictActor.__init__` passes
(every entry is `MultiDiscrete`, every shape is 4-dimensional, and the third
check's `nvec.min() == nvec.max()` comparison evaluates — which requires a
nonempty `nvec` — and holds), each stored `action_plane_shapes` entry,
computed as `space.shape[:-2]`, has length exactly 2, so the constructor's
`assert` condition holds and construction succeeds. -/
theorem claim_C6_assert_never_fails (in_ch : Nat) (sp : List (String × GymSpace))
    (cps : String → List (List ℚ) × List ℚ)
    (h1 : allMultiDiscrete sp) (h2 : allShape4 sp) (hne : allNvecNonempty sp)
    (h3 : allUniform sp) :
    ∃ A, DictActor.init in_ch sp cps = .ok A ∧
      (∀ p ∈ A.action_plane_shapes, p.2.length = 2) ∧
      A.action_plane_shapes.all (fun p => p.2.length == 2) = true := by
  refine ⟨_, init_ok_of_checks in_ch sp cps h1 h2 hne h3, ?_, ?_⟩
  · intro p hp
    obtain ⟨q, hq, rfl⟩ := List.mem_map.mp hp
    exact planeShape_length_two q.2 (h2 q hq)
  · refine List.all_eq_true.mpr ?_
    intro q hq
    obtain ⟨p, hp, rfl⟩ := List.mem_map.mp hq
    exact beq_iff_eq.mpr (planeShape_length_two p.2 (h2 p hp))

/-- A concrete `MultiDiscrete` action space for witnesses: `nvec` of shape
`(1, 2, 1, 1)` with 3 actions everywhere (plane shape `(1, 2)`). -/
def mdC : MultiDiscrete :=
  ⟨[1, 2, 1, 1], [3, 3], by decide, by decide⟩

/-- A concrete one-key action-space dict for witnesses. -/
def spC : List (String × GymSpace) := [("worker", GymSpace.multiDiscrete mdC)]

theorem claim_C6_witness :
    allMultiDiscrete spC ∧ allShape4 spC ∧ allNvecNonempty spC ∧ allUniform spC ∧
      (∃ A, DictActor.init 1 spC cpsC = .ok A ∧
        (∀ p ∈ A.action_plane_shapes, p.2.length = 2) ∧
        A.action_plane_shapes.all (fun p => p.2.length == 2) = true) :=
  ⟨by decide, by decide, by decide, by decide,
    claim_C6_assert_never_fails 1 spC cpsC (by decide) (by decide) (by decide)
      (by decide)⟩

theorem lookup_map_of_nodup {γ : Type} (f : String → GymSpace → γ)
    (sp : List (String × GymSpace)) :
    (sp.map Prod.fst).Nodup →
      ∀ k s, (k, s) ∈ sp →
        (sp.map (fun p => (p.1, f p.1 p.2))).lookup k = some (f k s) := by
  induction sp with
  | nil => intro _ k s h; cases h
  | cons q t ih =>
    obtain ⟨a, sb⟩ := q
    intro hnd k s hmem
    rw [List.map_cons, List.nodup_cons] at hnd
    rcases List.mem_cons.mp hmem with heq | hin
    · obtain ⟨rfl, rfl⟩ := Prod.mk.injEq .. ▸ heq
      simp [List.lookup]
    · have hka : k ≠ a := by
        rintro rfl
        exact hnd.1 (List.mem_map.mpr ⟨(k, s), hin, rfl⟩)
      have hbeq : (k == a) = false := beq_eq_false_iff_ne.mpr hka
      simp only [List.map_cons, List.lookup, hbeq]
      exact ih hnd.2 k s hin

theorem lookup_map_snd {β γ : Type} (g : β → γ) (l : List (String × β)) (k : String) :
    (l.map (fun o => (o.1, g o.2))).lookup k = (l.lookup k).map g := by
  induction l with
  | nil => simp [List.lookup]
  | cons q t ih =>
    by_cases hk : k = q.1
    · subst hk
      simp [List.lookup]
    · have hbeq : (k == q.1) = false := beq_eq_false_iff_ne.mpr hk
      simp only [List.map_cons, List.lookup, hbeq]
      exact ih

theorem rowOf_length_eq (n : Nat) (hn : 0 < n) (data : List ℚ) (N : Nat)
    (hlen : data.length = N * n) (i : Nat) (hi : i < N) :
    (rowOf n data i).length = n := by
  have hmul : (i + 1) * n ≤ N * n := Nat.mul_le_mul_right n hi
  rw [Nat.succ_mul] at hmul
  simp only [rowOf, List.length_take, List.length_drop, hlen]
  omega

theorem rowOf_ne_nil (n : Nat) (hn : 0 < n) (data : List ℚ) (N : Nat)
    (hlen : data.length = N * n) (i : Nat) (hi : i < N) :
    rowOf n data i ≠ [] := by
  have h := rowOf_length_eq n hn data N hlen i hi
  intro hc
  rw [hc] at h
  simp at h
  omega

theorem logits_to_actions_spec (t : Tensor) (N n : Nat) (ht : t.shape = [N, n])
    (hn : 0 < n) (hlen : t.data.length = N * n) (sample : Bool) (rng : Nat → ℝ) :
    ∃ a : TensorN, DictActor.logits_to_actions t sample rng = some a ∧
      a.shape = (if sample then [N, 1] else [N]) ∧
      a.shape.prod = N ∧
      (∀ v ∈ a.data, v < n) := by
  cases sample with
  | true =>
    refine ⟨⟨[N, 1], (List.range N).map (fun i =>
        cdfSample (softmaxR ((rowOf n t.data i).map (fun q : ℚ => (q : ℝ)))) (rng i))⟩,
      ?_, rfl, by simp, ?_⟩
    · simp [DictActor.logits_to_actions, ht]
    · intro v hv
      obtain ⟨i, hi, rfl⟩ := List.mem_map.mp hv
      rw [List.mem_range] at hi
      have hrow := rowOf_length_eq n hn t.data N hlen i hi
      have hne := rowOf_ne_nil n hn t.data N hlen i hi
      have hne' : softmaxR ((rowOf n t.data i).map (fun q : ℚ => (q : ℝ))) ≠ [] := by
        unfold softmaxR
        intro hc
        exact hne (List.map_eq_nil_iff.mp (List.map_eq_nil_iff.mp hc))
      have := cdfSample_lt _ (rng i) hne'
      calc cdfSample (softmaxR ((rowOf n t.data i).map (fun q : ℚ => (q : ℝ)))) (rng i)
          < (softmaxR ((rowOf n t.data i).map (fun q : ℚ => (q : ℝ)))).length := this
        _ = n := by
          unfold softmaxR
          rw [List.length_map, List.length_map, hrow]
  | false =>
    refine ⟨⟨[N], (List.range N).map (fun i => argmaxList (rowOf n t.data i))⟩,
      ?_, rfl, by simp, ?_⟩
    · simp [DictActor.logits_to_actions, ht]
    · intro v hv
      obtain ⟨i, hi, rfl⟩ := List.mem_map.mp hv
      rw [List.mem_range] at hi
      have hrow := rowOf_length_eq n hn t.data N hlen i hi
      have hne := rowOf_ne_nil n hn t.data N hlen i hi
      have := argmaxList_lt _ hne
      rw [hrow] at this
      exact this

theorem conv_apply_shape (m : Conv2dM) (t : Tensor) (b h w : Nat)
    (ht : t.shape = [b, m.in_channels, h, w]) :
    m.apply t = some ⟨[b, m.out_channels, h, w],
      List.ofFn (fun j : Fin (([b, m.out_channels, h, w] : List Nat).prod) =>
        convEntry m (h * w) t.data j.val)⟩ := by
  simp [Conv2dM.apply, ht]

theorem list_length_four {α : Type} (l : List α) (h : l.length = 4) :
    ∃ a b c d, l = [a, b, c, d] := by
  cases l with
  | nil => simp at h
  | cons a l =>
    cases l with
    | nil => simp at h
    | cons b l =>
      cases l with
      | nil => simp at h
      | cons c l =>
        cases l with
        | nil => simp at h
        | cons d l =>
          cases l with
          | nil => exact ⟨a, b, c, d, rfl⟩
          | cons e l => simp at h

theorem view_ok (t : Tensor) (snew : List Nat) (hp : snew.prod = t.shape.prod) :
    t.view snew = some ⟨snew, t.data⟩ := by
  simp [Tensor.view, hp]

theorem viewN_ok (t : TensorN) (snew : List Nat) (hp : snew.prod = t.shape.prod) :
    t.view snew = some ⟨snew, t.data⟩ := by
  simp [TensorN.view, hp]

theorem viewNeg1_ok (t : Tensor) (n N : Nat) (hn : 0 < n) (hp : t.shape.prod = N * n) :
    t.viewNeg1 n = some ⟨[N, n], t.data⟩ := by
  have hdvd : n ∣ t.shape.prod := ⟨N, by rw [hp]; ring⟩
  have hdiv : t.shape.prod / n = N := by rw [hp]; exact Nat.mul_div_cancel N hn
  simp [Tensor.viewNeg1, hn.ne', hdvd, hdiv]

theorem permute_ok (t : Tensor) (e0 e1 e2 e3 e4 e5 : Nat)
    (ht : t.shape = [e0, e1, e2, e3, e4, e5]) :
    ∃ d, permuteMoveDim1Last t = some ⟨[e0, e2, e3, e4, e5, e1], d⟩ ∧
      d.length = ([e0, e2, e3, e4, e5, e1] : List Nat).prod := by
  obtain ⟨sh, data⟩ := t
  simp only at ht
  subst ht
  exact ⟨_, rfl, by simp⟩

theorem actorTail_spec (b n p1 p2 h w : Nat) (hn : 0 < n) (oc : Nat)
    (hoc : oc = n * (p1 * (p2 * 1))) (d1 : List ℚ) (sample : Bool) (rng : Nat → ℝ)
    (k : String) :
    ∃ L Ta,
      (do
        let logits1 ← Tensor.view ⟨[b, oc, h, w], d1⟩ ([b, n] ++ [p1, p2] ++ [h, w])
        let logits ← permuteMoveDim1Last logits1
        let flat ← logits.viewNeg1 n
        let acts0 ← DictActor.logits_to_actions flat sample rng
        let actions ← acts0.view ([b] ++ [p1, p2] ++ [h, w])
        pure ((k : String), logits, actions)) = some (k, L, Ta) ∧
      L.shape = [b, p1, p2, h, w, n] ∧ Ta.shape = [b, p1, p2, h, w] ∧
      ∀ v ∈ Ta.data, v < n := by
  have hv1 : Tensor.view ⟨[b, oc, h, w], d1⟩ ([b, n] ++ [p1, p2] ++ [h, w]) =
      some ⟨[b, n, p1, p2, h, w], d1⟩ := by
    refine view_ok _ _ ?_
    show ([b, n] ++ [p1, p2] ++ [h, w] : List Nat).prod = ([b, oc, h, w] : List Nat).prod
    simp only [List.cons_append, List.nil_append, List.prod_cons, List.prod_nil, hoc]
    ring
  obtain ⟨d3, hperm, hd3len⟩ :=
    permute_ok ⟨[b, n, p1, p2, h, w], d1⟩ b n p1 p2 h w rfl
  have hflat : Tensor.viewNeg1 ⟨[b, p1, p2, h, w, n], d3⟩ n =
      some ⟨[b * (p1 * (p2 * (h * w))), n], d3⟩ := by
    refine viewNeg1_ok _ n _ hn ?_
    show ([b, p1, p2, h, w, n] : List Nat).prod = b * (p1 * (p2 * (h * w))) * n
    simp only [List.prod_cons, List.prod_nil]
    ring
  have hd3len2 : d3.length = b * (p1 * (p2 * (h * w))) * n := by
    rw [hd3len]
    simp only [List.prod_cons, List.prod_nil]
    ring
  obtain ⟨a, ha, hash, haprod, habound⟩ :=
    logits_to_actions_spec ⟨[b * (p1 * (p2 * (h * w))), n], d3⟩
      (b * (p1 * (p2 * (h * w)))) n rfl hn hd3len2 sample rng
  have hview2 : a.view ([b] ++ [p1, p2] ++ [h, w]) =
      some ⟨[b, p1, p2, h, w], a.data⟩ := by
    have hp2 : (([b] ++ [p1, p2] ++ [h, w] : List Nat)).prod = a.shape.prod := by
      rw [haprod]
      simp only [List.cons_append, List.nil_append, List.prod_cons, List.prod_nil]
      ring
    have := viewN_ok a ([b] ++ [p1, p2] ++ [h, w]) hp2
    simpa using this
  refine ⟨⟨[b, p1, p2, h, w, n], d3⟩, ⟨[b, p1, p2, h, w], a.data⟩, ?_, rfl, rfl, habound⟩
  simp only [hv1, Option.bind_eq_bind, Option.some_bind, hperm, hflat, ha, hview2,
    Option.pure_def]

theorem actorStep_spec (A : DictActor) (in_ch : Nat) (sp : List (String × GymSpace))
    (cps : String → List (List ℚ) × List ℚ)
    (hInit : DictActor.init in_ch sp cps = .ok A)
    (hnd : (sp.map Prod.fst).Nodup)
    (b h w : Nat) (x : Tensor) (hx : x.shape = [b, in_ch, h, w])
    (sample : Bool) (rng : Nat → ℝ)
    (k : String) (s : GymSpace) (hmem : (k, s) ∈ sp) (hne1 : s.nvecOf ≠ []) :
    ∃ L Ta, A.actorStep b h w x sample rng (k, mkActorConv in_ch cps k s) =
        some (k, L, Ta) ∧
      L.shape = b :: s.shapeOf.take 2 ++ [h, w, nvecMin s.nvecOf] ∧
      Ta.shape = b :: s.shapeOf.take 2 ++ [h, w] ∧
      (∀ v ∈ Ta.data, v < nvecMin s.nvecOf) := by
  obtain ⟨h1, h2, hne0, h3, hA⟩ := init_ok_elim in_ch sp cps A hInit
  have hmd : s.isMultiDiscrete = true := h1 (k, s) hmem
  have hs4 : s.shapeOf.length = 4 := h2 (k, s) hmem
  obtain ⟨m, rfl⟩ : ∃ m, s = GymSpace.multiDiscrete m := by
    cases s with
    | multiDiscrete m => exact ⟨m, rfl⟩
    | other sh => simp [GymSpace.isMultiDiscrete] at hmd
  obtain ⟨p1, p2, s3, s4, hm4⟩ := list_length_four m.shape hs4
  have haps : planeShape (GymSpace.multiDiscrete m) = [p1, p2] := by
    simp [planeShape, GymSpace.shapeOf, hm4]
  set n := nvecMin (GymSpace.multiDiscrete m).nvecOf with hnn
  have hn : 0 < n := nvecMin_pos m hne1
  have hlook1 : A.n_actions.lookup k = some n := by
    rw [hA]
    exact lookup_map_of_nodup (fun _ s => nvecMin s.nvecOf) sp hnd k _ hmem
  have hlook2 : A.action_plane_shapes.lookup k = some [p1, p2] := by
    rw [hA, ← haps]
    exact lookup_map_of_nodup (fun _ s => planeShape s) sp hnd k _ hmem
  set m' := mkActorConv in_ch cps k (GymSpace.multiDiscrete m) with hm'
  have hxm : x.shape = [b, m'.in_channels, h, w] := by rw [hx]; rfl
  have hconv := conv_apply_shape m' x b h w hxm
  have hoc : m'.out_channels = n * (p1 * (p2 * 1)) := by
    simp [hm', mkActorConv, haps]
  obtain ⟨L, Ta, heq, hL, hTa, hbound⟩ := actorTail_spec b n p1 p2 h w hn m'.out_channels hoc
    (List.ofFn fun j : Fin (([b, m'.out_channels, h, w] : List Nat).prod) =>
      convEntry m' (h * w) x.data j.val) sample rng k
  refine ⟨L, Ta, ?_, ?_, ?_, hbound⟩
  · simp only [DictActor.actorStep, hlook1, hlook2, hconv, Option.bind_eq_bind,
      Option.some_bind]
    exact heq
  · rw [hL]
    simp [GymSpace.shapeOf, hm4]
  · rw [hTa]
    simp [GymSpace.shapeOf, hm4]

theorem forwardList_spec (A : DictActor) (in_ch : Nat) (sp : List (String × GymSpace))
    (cps : String → List (List ℚ) × List ℚ)
    (hInit : DictActor.init in_ch sp cps = .ok A)
    (hnd : (sp.map Prod.fst).Nodup)
    (b h w : Nat) (x : Tensor) (hx : x.shape = [b, in_ch, h, w])
    (sample : Bool) (rng : Nat → ℝ)
    (hne : ∀ p ∈ sp, p.2.nvecOf ≠ []) :
    ∀ l : List (String × GymSpace), (∀ p ∈ l, p ∈ sp) →
      ∃ outs, A.forwardList b h w x sample rng
          (l.map (fun p => (p.1, mkActorConv in_ch cps p.1 p.2))) = some outs ∧
        List.Forall₂ (fun (p : String × GymSpace) (o : String × Tensor × TensorN) =>
          o.1 = p.1 ∧
          o.2.1.shape = b :: p.2.shapeOf.take 2 ++ [h, w, nvecMin p.2.nvecOf] ∧
          o.2.2.shape = b :: p.2.shapeOf.take 2 ++ [h, w] ∧
          (∀ v ∈ o.2.2.data, v < nvecMin p.2.nvecOf)) l outs := by
  intro l
  induction l with
  | nil => intro _; exact ⟨[], rfl, List.Forall₂.nil⟩
  | cons p t ih =>
    intro hsub
    obtain ⟨pk, ps⟩ := p
    have hmem : (pk, ps) ∈ sp := hsub _ (List.mem_cons_self _ _)
    obtain ⟨L, Ta, heq, hL, hTa, hbound⟩ :=
      actorStep_spec A in_ch sp cps hInit hnd b h w x hx sample rng pk ps hmem
        (hne _ hmem)
    obtain ⟨outs, houts, hrel⟩ := ih (fun q hq => hsub q (List.mem_cons_of_mem _ hq))
    refine ⟨(pk, L, Ta) :: outs, ?_, List.Forall₂.cons ⟨rfl, hL, hTa, hbound⟩ hrel⟩
    simp only [List.map_cons, DictActor.forwardList, heq, houts, Option.bind_eq_bind,
      Option.some_bind, Option.pure_def]

theorem forall2_lookup (R : (String × GymSpace) → (String × Tensor × TensorN) → Prop)
    (hR : ∀ p o, R p o → o.1 = p.1) :
    ∀ (sp : List (String × GymSpace)) (outs : List (String × Tensor × TensorN)),
      List.Forall₂ R sp outs → (sp.map Prod.fst).Nodup →
      ∀ k s, (k, s) ∈ sp → ∃ y, outs.lookup k = some y ∧ R (k, s) (k, y) := by
  intro sp outs hrel
  induction hrel with
  | nil => intro _ k s h; cases h
  | @cons p o t ot hpo hrest ih =>
    intro hnd k s hmem
    obtain ⟨pk, ps⟩ := p
    obtain ⟨ok, oy⟩ := o
    have ho1 : ok = pk := hR _ _ hpo
    subst ho1
    rw [List.map_cons, List.nodup_cons] at hnd
    rcases List.mem_cons.mp hmem with heq | hin
    · obtain ⟨rfl, rfl⟩ := Prod.mk.injEq .. ▸ heq
      refine ⟨oy, ?_, hpo⟩
      simp [List.lookup]
    · have hka : k ≠ ok := by
        rintro rfl
        exact hnd.1 (List.mem_map.mpr ⟨(k, s), hin, rfl⟩)
      have hbeq : (k == ok) = false := beq_eq_false_iff_ne.mpr hka
      simp only [List.lookup, hbeq]
      exact ih hnd.2 k s hin

theorem dictActor_forward_spec (A : DictActor) (in_ch : Nat)
    (sp : List (String × GymSpace)) (cps : String → List (List ℚ) × List ℚ)
    (hInit : DictActor.init in_ch sp cps = .ok A)
    (hnd : (sp.map Prod.fst).Nodup)
    (hne : ∀ p ∈ sp, p.2.nvecOf ≠ [])
    (b h w : Nat) (x : Tensor) (hx : x.shape = [b, in_ch, h, w])
    (sample : Bool) (rng : Nat → ℝ) :
    ∃ pls acts, A.forward x sample rng = some (pls, acts) ∧
      ∀ k m, (k, GymSpace.multiDiscrete m) ∈ sp →
        ∃ L Ta, pls.lookup k = some L ∧ acts.lookup k = some Ta ∧
          L.shape = b :: m.shape.take 2 ++ [h, w, nvecMin m.nvec] ∧
          Ta.shape = b :: m.shape.take 2 ++ [h, w] ∧
          (∀ v ∈ Ta.data, v < nvecMin m.nvec) := by
  obtain ⟨h1, h2, hne0, h3, hA⟩ := init_ok_elim in_ch sp cps A hInit
  obtain ⟨outs, houts, hrel⟩ :=
    forwardList_spec A in_ch sp cps hInit hnd b h w x hx sample rng hne sp
      (fun q hq => hq)
  have hactors : A.actors = sp.map (fun p => (p.1, mkActorConv in_ch cps p.1 p.2)) := by
    rw [hA]
  refine ⟨outs.map (fun o => (o.1, o.2.1)), outs.map (fun o => (o.1, o.2.2)), ?_, ?_⟩
  · simp only [DictActor.forward, hx, hactors, houts, Option.bind_eq_bind,
      Option.some_bind, Option.pure_def]
  · intro k m hkm
    obtain ⟨y, hy, hR⟩ := forall2_lookup _ (fun p o hpo => hpo.1) sp outs hrel hnd k
      (GymSpace.multiDiscrete m) hkm
    obtain ⟨-, hLs, hTs, hbd⟩ := hR
    refine ⟨y.1, y.2, ?_, ?_, ?_, ?_, ?_⟩
    · rw [lookup_map_snd (fun z : Tensor × TensorN => z.1) outs k, hy]
      rfl
    · rw [lookup_map_snd (fun z : Tensor × TensorN => z.2) outs k, hy]
      rfl
    · exact hLs
    · exact hTs
    · exact hbd

/-- Claim C4: for every action-space key, `DictActor.forward` on an input of
shape `(batch, channels, height, width)` returns policy logits for that key of
shape `(batch, p1, p2, height, width, n_actions[key])`, where `(p1, p2)` is
the key's action-plane shape (the first two dimensions of its space shape),
one logit vector of length `n_actions[key]` per location and action plane,
with the action dimension moved to the last position. -/
theorem claim_C4_logits_shape (A : DictActor) (in_ch : Nat)
    (sp : List (String × GymSpace)) (cps : String → List (List ℚ) × List ℚ)
    (hInit : DictActor.init in_ch sp cps = .ok A)
    (hnd : (sp.map Prod.fst).Nodup)
    (hne : ∀ p ∈ sp, p.2.nvecOf ≠ [])
    (b h w : Nat) (x : Tensor) (hx : x.shape = [b, in_ch, h, w])
    (sample : Bool) (rng : Nat → ℝ)
    (k : String) (m : MultiDiscrete) (hk : (k, GymSpace.multiDiscrete m) ∈ sp) :
    ∃ pls acts, A.forward x sample rng = some (pls, acts) ∧
      ∃ L, pls.lookup k = some L ∧
        L.shape = b :: m.shape.take 2 ++ [h, w, nvecMin m.nvec] := by
  obtain ⟨pls, acts, hf, hkey⟩ :=
    dictActor_forward_spec A in_ch sp cps hInit hnd hne b h w x hx sample rng
  obtain ⟨L, Ta, hL, hTa, hLs, hTs, hbd⟩ := hkey k m hk
  exact ⟨pls, acts, hf, L, hL, hLs⟩

/-- Claim C5: for every action-space key and for both `sample=True` and
`sample=False`, the per-key actions tensor returned by `DictActor.forward`
has shape `(batch, p1, p2, height, width)` — even though
`logits_to_actions` returns a `(N, 1)` tensor (trailing singleton dimension)
in the sampling case and a `(N,)` tensor in the argmax case; the subsequent
`view` reconciles both. -/
theorem claim_C5_actions_shape (A : DictActor) (in_ch : Nat)
    (sp : List (String × GymSpace)) (cps : String → List (List ℚ) × List ℚ)
    (hInit : DictActor.init in_ch sp cps = .ok A)
    (hnd : (sp.map Prod.fst).Nodup)
    (hne : ∀ p ∈ sp, p.2.nvecOf ≠ [])
    (b h w : Nat) (x : Tensor) (hx : x.shape = [b, in_ch, h, w])
    (sample : Bool) (rng : Nat → ℝ)
    (k : String) (m : MultiDiscrete) (hk : (k, GymSpace.multiDiscrete m) ∈ sp) :
    (∃ pls acts, A.forward x sample rng = some (pls, acts) ∧
      ∃ Ta, acts.lookup k = some Ta ∧
        Ta.shape = b :: m.shape.take 2 ++ [h, w]) ∧
    (∀ (t : Tensor) (N n : Nat), t.shape = [N, n] → 0 < n →
      t.data.length = N * n →
      (∃ a1, DictActor.logits_to_actions t true rng = some a1 ∧ a1.shape = [N, 1]) ∧
      (∃ a2, DictActor.logits_to_actions t false rng = some a2 ∧ a2.shape = [N])) := by
  constructor
  · obtain ⟨pls, acts, hf, hkey⟩ :=
      dictActor_forward_spec A in_ch sp cps hInit hnd hne b h w x hx sample rng
    obtain ⟨L, Ta, hL, hTa, hLs, hTs, hbd⟩ := hkey k m hk
    exact ⟨pls, acts, hf, Ta, hTa, hTs⟩
  · intro t N n ht hn hlen
    constructor
    · obtain ⟨a1, ha1, hsh, -, -⟩ := logits_to_actions_spec t N n ht hn hlen true rng
      exact ⟨a1, ha1, by simpa using hsh⟩
    · obtain ⟨a2, ha2, hsh, -, -⟩ := logits_to_actions_spec t N n ht hn hlen false rng
      exact ⟨a2, ha2, by simpa using hsh⟩

/-- Claim C7: for every action-space key, every entry of the actions tensor
returned by `DictActor.forward` is an integer in `[0, n_actions[key] - 1]`
(the entries are naturals, hence at least 0, and strictly below
`n_actions[key] = nvec.min()`), in both the sampling (multinomial over the
softmax) and the argmax mode. -/
theorem claim_C7_action_range (A : DictActor) (in_ch : Nat)
    (sp : List (String × GymSpace)) (cps : String → List (List ℚ) × List ℚ)
    (hInit : DictActor.init in_ch sp cps = .ok A)
    (hnd : (sp.map Prod.fst).Nodup)
    (hne : ∀ p ∈ sp, p.2.nvecOf ≠ [])
    (b h w : Nat) (x : Tensor) (hx : x.shape = [b, in_ch, h, w])
    (sample : Bool) (rng : Nat → ℝ)
    (k : String) (m : MultiDiscrete) (hk : (k, GymSpace.multiDiscrete m) ∈ sp) :
    ∃ pls acts, A.forward x sample rng = some (pls, acts) ∧
      ∃ Ta, acts.lookup k = some Ta ∧
        ∀ v ∈ Ta.data, v < nvecMin m.nvec := by
  obtain ⟨pls, acts, hf, hkey⟩ :=
    dictActor_forward_spec A in_ch sp cps hInit hnd hne b h w x hx sample rng
  obtain ⟨L, Ta, hL, hTa, hLs, hTs, hbd⟩ := hkey k m hk
  exact ⟨pls, acts, hf, Ta, hTa, hbd⟩

/-- The concrete `DictActor` built by `DictActor.init 1 spC cpsC`. -/
def AC : DictActor :=
  ⟨[("worker", 3)], [("worker", [1, 2])], [("worker", ⟨1, 6, [], []⟩)]⟩

/-- A concrete `(1, 1, 1, 1)` input tensor for witnesses. -/
def xC : Tensor := ⟨[1, 1, 1, 1], [0]⟩

/-- A concrete random stream for witnesses. -/
noncomputable def rngC : Nat → ℝ := fun _ => 0

theorem claim_C4_witness :
    DictActor.init 1 spC cpsC = .ok AC ∧ (spC.map Prod.fst).Nodup ∧
      (∀ p ∈ spC, p.2.nvecOf ≠ []) ∧ xC.shape = [1, 1, 1, 1] ∧
      ("worker", GymSpace.multiDiscrete mdC) ∈ spC ∧
      (∃ pls acts, AC.forward xC false rngC = some (pls, acts) ∧
        ∃ L, pls.lookup "worker" = some L ∧
          L.shape = 1 :: mdC.shape.take 2 ++ [1, 1, nvecMin mdC.nvec]) :=
  ⟨rfl, by decide, by decide, rfl, List.mem_singleton.mpr rfl,
    claim_C4_logits_shape AC 1 spC cpsC rfl (by decide) (by decide)
      1 1 1 xC rfl false rngC "worker" mdC (List.mem_singleton.mpr rfl)⟩

theorem claim_C5_witness :
    DictActor.init 1 spC cpsC = .ok AC ∧ (spC.map Prod.fst).Nodup ∧
      (∀ p ∈ spC, p.2.nvecOf ≠ []) ∧ xC.shape = [1, 1, 1, 1] ∧
      ("worker", GymSpace.multiDiscrete mdC) ∈ spC ∧
      ((∃ pls acts, AC.forward xC true rngC = some (pls, acts) ∧
        ∃ Ta, acts.lookup "worker" = some Ta ∧
          Ta.shape = 1 :: mdC.shape.take 2 ++ [1, 1]) ∧
      (∀ (t : Tensor) (N n : Nat), t.shape = [N, n] → 0 < n →
        t.data.length = N * n →
        (∃ a1, DictActor.logits_to_actions t true rngC = some a1 ∧ a1.shape = [N, 1]) ∧
        (∃ a2, DictActor.logits_to_actions t false rngC = some a2 ∧ a2.shape = [N]))) :=
  ⟨rfl, by decide, by decide, rfl, List.mem_singleton.mpr rfl,
    claim_C5_actions_shape AC 1 spC cpsC rfl (by decide) (by decide)
      1 1 1 xC rfl true rngC "worker" mdC (List.mem_singleton.mpr rfl)⟩

theorem claim_C7_witness :
    DictActor.init 1 spC cpsC = .ok AC ∧ (spC.map Prod.fst).Nodup ∧
      (∀ p ∈ spC, p.2.nvecOf ≠ []) ∧ xC.shape = [1, 1, 1, 1] ∧
      ("worker", GymSpace.multiDiscrete mdC) ∈ spC ∧
      (∃ pls acts, AC.forward xC false rngC = some (pls, acts) ∧
        ∃ Ta, acts.lookup "worker" = some Ta ∧
          ∀ v ∈ Ta.data, v < nvecMin mdC.nvec) :=
  ⟨rfl, by decide, by decide, rfl, List.mem_singleton.mpr rfl,
    claim_C7_action_range AC 1 spC cpsC rfl (by decide) (by decide)
      1 1 1 xC rfl false rngC "worker" mdC (List.mem_singleton.mpr rfl)⟩

theorem runSeq_append (l1 l2 : List Layer) :
    ∀ t : Tensor, runSeq (l1 ++ l2) t = (runSeq l1 t).bind (runSeq l2) := by
  induction l1 with
  | nil => intro t; rfl
  | cons l ls ih =>
    intro t
    simp only [List.cons_append, runSeq]
    cases applyLayer l t with
    | none => rfl
    | some u => simp only [Option.some_bind']; exact ih u

theorem runSeq_convActLayers (C : Nat) (act : ℚ → ℚ)
    (supply : Nat → List (List ℚ) × List ℚ) :
    ∀ (cnt : Nat) (t : Tensor) (b h w : Nat), t.shape = [b, C, h, w] →
      ∃ u, runSeq (convActLayers C act supply cnt) t = some u ∧
        u.shape = [b, C, h, w] := by
  intro cnt
  induction cnt with
  | zero => intro t b h w ht; exact ⟨t, rfl, ht⟩
  | succ n ih =>
    intro t b h w ht
    obtain ⟨u, hu, hus⟩ := ih t b h w ht
    have hc := conv_apply_shape ⟨C, C, (supply n).1, (supply n).2⟩ u b h w (by rw [hus])
    rw [convActLayers, runSeq_append, hu, Option.some_bind']
    refine ⟨⟨[b, C, h, w],
      (List.ofFn fun j : Fin (([b, C, h, w] : List Nat).prod) =>
        convEntry ⟨C, C, (supply n).1, (supply n).2⟩ (h * w) u.data j.val).map act⟩,
      ?_, rfl⟩
    simp only [runSeq, applyLayer, hc, Option.some_bind']

theorem runSeq_baselineTail (C : Nat) (linW : List (List ℚ)) (linB : List ℚ)
    (t : Tensor) (b h w : Nat) (ht : t.shape = [b, C, h, w]) :
    ∃ d, runSeq [Layer.adaptiveAvgPool2d1, Layer.flatten,
        Layer.linear ⟨C, 2, linW, linB⟩] t = some ⟨[b, 2], d⟩ ∧
      d.length = b * 2 := by
  have hpool : applyLayer Layer.adaptiveAvgPool2d1 t =
      some ⟨[b, C, 1, 1],
        List.ofFn (fun j : Fin (([b, C, 1, 1] : List Nat).prod) =>
          (List.foldl (fun s p => s + t.data.getD (j.val * (h * w) + p) 0)
            0 (List.range (h * w))) / ((h * w : Nat) : ℚ))⟩ := by
    simp [applyLayer, ht]
  refine ⟨List.ofFn (fun j : Fin (([b, 2] : List Nat).prod) =>
      linEntry ⟨C, 2, linW, linB⟩
        (List.ofFn (fun j : Fin (([b, C, 1, 1] : List Nat).prod) =>
          (List.foldl (fun s p => s + t.data.getD (j.val * (h * w) + p) 0)
            0 (List.range (h * w))) / ((h * w : Nat) : ℚ))) j.val), ?_, ?_⟩
  · simp only [runSeq]
    rw [hpool]
    simp [applyLayer]
  · simp [Nat.mul_comm]

theorem chunks_mem_length {α : Type} (n : Nat) (hn : 0 < n) (l : List α) (N : Nat)
    (hlen : l.length = N * n) :
    ∀ row ∈ chunks n l, row.length = n := by
  intro row hrow
  obtain ⟨i, hi, rfl⟩ := List.mem_map.mp hrow
  rw [List.mem_range, hlen, Nat.mul_div_cancel N hn] at hi
  have hmul : (i + 1) * n ≤ N * n := Nat.mul_le_mul_right n hi
  rw [Nat.succ_mul] at hmul
  simp only [List.length_take, List.length_drop, hlen]
  omega

theorem chunks_flatten {α : Type} (n : Nat) (hn : 0 < n) :
    ∀ rs : List (List α), (∀ r ∈ rs, r.length = n) →
      chunks n rs.flatten = rs := by
  intro rs
  induction rs with
  | nil => intro _; simp [chunks]
  | cons r t ih =>
    intro h
    have hr : r.length = n := h r (List.mem_cons_self r t)
    have htail := ih (fun q hq => h q (List.mem_cons_of_mem r hq))
    have hflat : (r :: t).flatten = r ++ t.flatten := rfl
    have hlen : (r ++ t.flatten).length = t.flatten.length + n := by
      simp [hr]
      omega
    rw [hflat]
    unfold chunks
    rw [hlen, Nat.add_div_right _ hn, List.range_succ_eq_map]
    simp only [List.map_cons, List.map_map, Nat.zero_mul, List.drop_zero]
    have hhead : (r ++ t.flatten).take n = r := List.take_left' hr
    have htail2 : List.map
        ((fun i => ((r ++ t.flatten).drop (i * n)).take n) ∘ Nat.succ)
        (List.range (t.flatten.length / n)) = chunks n t.flatten := by
      unfold chunks
      refine List.map_congr_left ?_
      intro i hi
      simp only [Function.comp_apply, Nat.succ_eq_add_one]
      have h2 : (i + 1) * n = n + i * n := by ring
      rw [h2, ← List.drop_drop, List.drop_left' hr]
    rw [hhead, htail2, htail]

theorem valueActivation_pair_tensor (b : Nat) (d : List ℚ) (hlen : d.length = b * 2) :
    (valueActivation ⟨[b, 2], d⟩).shape = [b, 2] ∧
    (∀ v ∈ (valueActivation ⟨[b, 2], d⟩).data, -1 < v ∧ v < 1) ∧
    (∀ row ∈ chunks 2 (valueActivation ⟨[b, 2], d⟩).data, row.sum = 0) := by
  have hrows : ∀ row ∈ chunks 2 d, row.length = 2 :=
    chunks_mem_length 2 (by omega) d b hlen
  have hdata : (valueActivation ⟨[b, 2], d⟩).data =
      ((chunks 2 d).map
        (fun row => valueActivationRow (row.map (fun q : ℚ => (q : ℝ))))).flatten := by
    simp [valueActivation]
  refine ⟨rfl, ?_, ?_⟩
  · intro v hv
    rw [hdata, List.mem_flatten] at hv
    obtain ⟨lr, hlr, hvlr⟩ := hv
    obtain ⟨row, hrow, rfl⟩ := List.mem_map.mp hlr
    obtain ⟨q1, q2, rfl⟩ := List.length_eq_two.mp (hrows row hrow)
    simp only [List.map_cons, List.map_nil] at hvlr
    exact valueActivationRow_pair_mem_bounds (q1 : ℝ) (q2 : ℝ) v hvlr
  · have hflatrows : ∀ r ∈ (chunks 2 d).map
        (fun row => valueActivationRow (row.map (fun q : ℚ => (q : ℝ)))),
        r.length = 2 := by
      intro r hr
      obtain ⟨row, hrow, rfl⟩ := List.mem_map.mp hr
      rw [valueActivationRow_length, List.length_map]
      exact hrows row hrow
    rw [hdata, chunks_flatten 2 (by omega) _ hflatrows]
    intro row hrow
    obtain ⟨r0, hr0, rfl⟩ := List.mem_map.mp hrow
    obtain ⟨q1, q2, rfl⟩ := List.length_eq_two.mp (hrows r0 hr0)
    simp only [List.map_cons, List.map_nil]
    exact valueActivationRow_pair_sum (q1 : ℝ) (q2 : ℝ)

theorem bacn_init_ok_elim {α : Type} (dil : α → Tensor × Tensor)
    (bm : Tensor × Tensor → Tensor × Tensor) (C : Nat)
    (sp : List (String × GymSpace)) (act : ℚ → ℚ) (nl : Nat)
    (aS bS : Nat → List (List ℚ) × List ℚ)
    (acp : String → List (List ℚ) × List ℚ) (linW : List (List ℚ)) (linB : List ℚ)
    (net : BasicActorCriticNetwork α)
    (hInit : BasicActorCriticNetwork.init dil bm C sp act nl aS bS acp linW linB
      = .ok net) :
    ∃ A, DictActor.init C sp acp = .ok A ∧
      net = { dict_input_layer := dil, base_model := bm, base_out_channels := C,
              actor_base := convActLayers C act aS (nl - 1), actor := A,
              baseline_head := convActLayers C act bS (nl - 1) ++
                [Layer.adaptiveAvgPool2d1, Layer.flatten,
                 Layer.linear ⟨C, 2, linW, linB⟩] } := by
  cases hDA : DictActor.init C sp acp with
  | error e =>
    simp only [BasicActorCriticNetwork.init, hDA, Bind.bind, Except.bind] at hInit
    exact Except.noConfusion hInit
  | ok A =>
    simp only [BasicActorCriticNetwork.init, hDA, Bind.bind, Except.bind,
      Except.ok.injEq] at hInit
    exact ⟨A, rfl, hInit.symm⟩

theorem forward_out_baseline {α : Type} (net : BasicActorCriticNetwork α) (x : α)
    (sample : Bool) (rng : Nat → ℝ) (out : ForwardOut)
    (hout : net.forward x sample rng = some out) :
    ∃ pre, runSeq net.baseline_head (net.base_model (net.dict_input_layer x)).1
        = some pre ∧
      out.baseline = valueActivation pre := by
  simp only [BasicActorCriticNetwork.forward, Option.bind_eq_bind] at hout
  cases hab : runSeq net.actor_base (net.base_model (net.dict_input_layer x)).1 with
  | none => rw [hab] at hout; simp at hout
  | some ai =>
    rw [hab] at hout
    simp only [Option.some_bind] at hout
    cases hpa : net.actor.forward ai sample rng with
    | none => rw [hpa] at hout; simp at hout
    | some pa =>
      rw [hpa] at hout
      simp only [Option.some_bind] at hout
      cases hpre : runSeq net.baseline_head (net.base_model (net.dict_input_layer x)).1 with
      | none => rw [hpre] at hout; simp at hout
      | some pre =>
        rw [hpre] at hout
        simp only [Option.some_bind, Option.pure_def, Option.some.injEq] at hout
        exact ⟨pre, rfl, by rw [← hout]⟩

theorem forward_baseline_spec {α : Type} (dil : α → Tensor × Tensor)
    (bm : Tensor × Tensor → Tensor × Tensor) (C : Nat)
    (sp : List (String × GymSpace)) (act : ℚ → ℚ) (nl : Nat)
    (aS bS : Nat → List (List ℚ) × List ℚ)
    (acp : String → List (List ℚ) × List ℚ) (linW : List (List ℚ)) (linB : List ℚ)
    (net : BasicActorCriticNetwork α)
    (hInit : BasicActorCriticNetwork.init dil bm C sp act nl aS bS acp linW linB
      = .ok net)
    (x : α) (b h w : Nat)
    (hbase : ((net.base_model (net.dict_input_layer x)).1).shape = [b, C, h, w])
    (sample : Bool) (rng : Nat → ℝ) (out : ForwardOut)
    (hout : net.forward x sample rng = some out) :
    out.baseline.shape = [b, 2] ∧
    (∀ v ∈ out.baseline.data, -1 < v ∧ v < 1) ∧
    (∀ row ∈ chunks 2 out.baseline.data, row.sum = 0) := by
  obtain ⟨A, hDA, hnet⟩ :=
    bacn_init_ok_elim dil bm C sp act nl aS bS acp linW linB net hInit
  obtain ⟨pre, hpre, hbl⟩ := forward_out_baseline net x sample rng out hout
  have hbh : net.baseline_head = convActLayers C act bS (nl - 1) ++
      [Layer.adaptiveAvgPool2d1, Layer.flatten, Layer.linear ⟨C, 2, linW, linB⟩] := by
    rw [hnet]
  obtain ⟨u, hu, hus⟩ :=
    runSeq_convActLayers C act bS (nl - 1)
      ((net.base_model (net.dict_input_layer x)).1) b h w hbase
  obtain ⟨d, hd, hdlen⟩ := runSeq_baselineTail C linW linB u b h w hus
  have hrun : runSeq net.baseline_head ((net.base_model (net.dict_input_layer x)).1)
      = some ⟨[b, 2], d⟩ := by
    rw [hbh, runSeq_append, hu, Option.some_bind', hd]
  rw [hrun] at hpre
  injection hpre with hpre'
  subst hpre'
  rw [hbl]
  exact valueActivation_pair_tensor b d hdlen

/-- A pass-through `DictInputLayer` for witnesses (the observation doubles as
its own mask). -/
def dilC : Tensor → Tensor × Tensor := fun t => (t, t)

/-- An identity base model for witnesses. -/
def bmC : Tensor × Tensor → Tensor × Tensor := fun p => p

/-- An identity elementwise activation for witnesses. -/
def idActC : ℚ → ℚ := fun q => q

/-- A trivial conv-parameter supply for witnesses. -/
def supC : Nat → List (List ℚ) × List ℚ := fun _ => ([], [])

/-- The concrete network `BasicActorCriticNetwork.init` builds from the
witness parameters (`n_action_value_layers = 1`, one `worker` key). -/
def netCE : BasicActorCriticNetwork Tensor :=
  match BasicActorCriticNetwork.init dilC bmC 1 spC idActC 1 supC supC cpsC [] [] with
  | .ok n => n
  | .error _ =>
    { dict_input_layer := dilC, base_model := bmC, base_out_channels := 1,
      actor_base := [], actor := AC, baseline_head := [] }

/-- Claim C1 counterexample: on a concrete constructed network and a concrete
`(1, 1, 1, 1)` input, the `baseline` entry of the dictionary returned by
`BasicActorCriticNetwork.forward` has shape `(1, 2)` — the baseline head ends
in `nn.Linear(base_out_channels, 2)` — so it is not a single value per batch
element (which would be shape `(1,)` or `(1, 1)`). -/
theorem claim_C1_counterexample :
    BasicActorCriticNetwork.init dilC bmC 1 spC idActC 1 supC supC cpsC [] []
      = .ok netCE ∧
    ((netCE.forward xC false rngC).map (fun o => o.baseline.shape)) = some [1, 2] ∧
    ¬ (([1, 2] : List Nat) = [1] ∨ ([1, 2] : List Nat) = [1, 1]) :=
  ⟨rfl, rfl, by decide⟩

/-- Claim C1 (amended): for every input whose trunk output is a rank-4
`(batch, base_out_channels, h, w)` tensor, the `baseline` entry of the
dictionary returned by `BasicActorCriticNetwork.forward` has shape
`(batch, 2)` — one state-value estimate per batch element *per player*
(two values per batch element), not a single scalar per batch element. -/
theorem claim_C1_amended_baseline_shape {α : Type} (dil : α → Tensor × Tensor)
    (bm : Tensor × Tensor → Tensor × Tensor) (C : Nat)
    (sp : List (String × GymSpace)) (act : ℚ → ℚ) (nl : Nat)
    (aS bS : Nat → List (List ℚ) × List ℚ)
    (acp : String → List (List ℚ) × List ℚ) (linW : List (List ℚ)) (linB : List ℚ)
    (net : BasicActorCriticNetwork α)
    (hInit : BasicActorCriticNetwork.init dil bm C sp act nl aS bS acp linW linB
      = .ok net)
    (x : α) (b h w : Nat)
    (hbase : ((net.base_model (net.dict_input_layer x)).1).shape = [b, C, h, w])
    (sample : Bool) (rng : Nat → ℝ) (out : ForwardOut)
    (hout : net.forward x sample rng = some out) :
    out.baseline.shape = [b, 2] :=
  (forward_baseline_spec dil bm C sp act nl aS bS acp linW linB net hInit
    x b h w hbase sample rng out hout).1

/-- The concrete output of `netCE.forward` on the witness input (the forward
pass succeeds, so the `Option` is `some`). -/
noncomputable def outCE : ForwardOut :=
  (netCE.forward xC false rngC).get (by rfl)

theorem claim_C1_witness :
    BasicActorCriticNetwork.init dilC bmC 1 spC idActC 1 supC supC cpsC [] []
      = .ok netCE ∧
    ((netCE.base_model (netCE.dict_input_layer xC)).1).shape = [1, 1, 1, 1] ∧
    netCE.forward xC false rngC = some outCE ∧
    outCE.baseline.shape = [1, 2] :=
  ⟨rfl, rfl, (Option.some_get (by rfl)).symm,
    claim_C1_amended_baseline_shape dilC bmC 1 spC idActC 1 supC supC cpsC [] []
      netCE rfl xC 1 1 1 rfl false rngC outCE (Option.some_get (by rfl)).symm⟩

/-- Claim C8: `ValueActivation.forward` computes exactly
`2 * softmax(x, dim) - 1`; consequently, on the network's baseline output
(whose softmax dimension has size 2, from `nn.Linear(_, 2)`), every component
lies strictly inside `(-1, 1)` and the two components along the softmax
dimension of each batch element sum to 0. -/
theorem claim_C8_value_activation {α : Type} (dil : α → Tensor × Tensor)
    (bm : Tensor × Tensor → Tensor × Tensor) (C : Nat)
    (sp : List (String × GymSpace)) (act : ℚ → ℚ) (nl : Nat)
    (aS bS : Nat → List (List ℚ) × List ℚ)
    (acp : String → List (List ℚ) × List ℚ) (linW : List (List ℚ)) (linB : List ℚ)
    (net : BasicActorCriticNetwork α)
    (hInit : BasicActorCriticNetwork.init dil bm C sp act nl aS bS acp linW linB
      = .ok net)
    (x : α) (b h w : Nat)
    (hbase : ((net.base_model (net.dict_input_layer x)).1).shape = [b, C, h, w])
    (sample : Bool) (rng : Nat → ℝ) (out : ForwardOut)
    (hout : net.forward x sample rng = some out) :
    (∀ l : List ℝ, valueActivationRow l =
      l.map (fun v => 2 * (Real.exp v / (l.map Real.exp).sum) - 1)) ∧
    (∀ v ∈ out.baseline.data, -1 < v ∧ v < 1) ∧
    (∀ row ∈ chunks 2 out.baseline.data, row.sum = 0) :=
  ⟨valueActivationRow_eq,
    (forward_baseline_spec dil bm C sp act nl aS bS acp linW linB net hInit
      x b h w hbase sample rng out hout).2.1,
    (forward_baseline_spec dil bm C sp act nl aS bS acp linW linB net hInit
      x b h w hbase sample rng out hout).2.2⟩

theorem claim_C8_witness :
    BasicActorCriticNetwork.init dilC bmC 1 spC idActC 1 supC supC cpsC [] []
      = .ok netCE ∧
    ((netCE.base_model (netCE.dict_input_layer xC)).1).shape = [1, 1, 1, 1] ∧
    netCE.forward xC false rngC = some outCE ∧
    ((∀ l : List ℝ, valueActivationRow l =
        l.map (fun v => 2 * (Real.exp v / (l.map Real.exp).sum) - 1)) ∧
      (∀ v ∈ outCE.baseline.data, -1 < v ∧ v < 1) ∧
      (∀ row ∈ chunks 2 outCE.baseline.data, row.sum = 0)) :=
  ⟨rfl, rfl, (Option.some_get (by rfl)).symm,
    claim_C8_value_activation dilC bmC 1 spC idActC 1 supC supC cpsC [] []
      netCE rfl xC 1 1 1 rfl false rngC outCE (Option.some_get (by rfl)).symm⟩

/-- Claim C3: in `BasicActorCriticNetwork.forward` both heads consume the same
trunk output: with `base_out` the base model's output on the unpacked input,
the policy logits and actions are `DictActor` applied to
`actor_base(base_out)`, and the baseline is the pooled baseline head —
conv/activation layers, adaptive average pool, flatten, linear, final value
activation — applied to the same `base_out`. -/
theorem claim_C3_shared_trunk {α : Type} (dil : α → Tensor × Tensor)
    (bm : Tensor × Tensor → Tensor × Tensor) (C : Nat)
    (sp : List (String × GymSpace)) (act : ℚ → ℚ) (nl : Nat)
    (aS bS : Nat → List (List ℚ) × List ℚ)
    (acp : String → List (List ℚ) × List ℚ) (linW : List (List ℚ)) (linB : List ℚ)
    (net : BasicActorCriticNetwork α)
    (hInit : BasicActorCriticNetwork.init dil bm C sp act nl aS bS acp linW linB
      = .ok net)
    (x : α) (sample : Bool) (rng : Nat → ℝ) :
    (net.forward x sample rng =
      (fun base_out =>
        (runSeq net.actor_base base_out).bind fun actor_in =>
        (net.actor.forward actor_in sample rng).bind fun pa =>
        (runSeq net.baseline_head base_out).bind fun pre =>
        some { actions := pa.2, policy_logits := pa.1,
               baseline := valueActivation pre })
        ((net.base_model (net.dict_input_layer x)).1)) ∧
    DictActor.init C sp acp = .ok net.actor ∧
    net.actor_base = convActLayers C act aS (nl - 1) ∧
    net.baseline_head = convActLayers C act bS (nl - 1) ++
      [Layer.adaptiveAvgPool2d1, Layer.flatten, Layer.linear ⟨C, 2, linW, linB⟩] := by
  obtain ⟨A, hDA, hnet⟩ :=
    bacn_init_ok_elim dil bm C sp act nl aS bS acp linW linB net hInit
  subst hnet
  exact ⟨rfl, hDA, rfl, rfl⟩

theorem claim_C3_witness :
    BasicActorCriticNetwork.init dilC bmC 1 spC idActC 1 supC supC cpsC [] []
      = .ok netCE ∧
    ((netCE.forward xC false rngC =
      (fun base_out =>
        (runSeq netCE.actor_base base_out).bind fun actor_in =>
        (netCE.actor.forward actor_in false rngC).bind fun pa =>
        (runSeq netCE.baseline_head base_out).bind fun pre =>
        some { actions := pa.2, policy_logits := pa.1,
               baseline := valueActivation pre })
        ((netCE.base_model (netCE.dict_input_layer xC)).1)) ∧
    DictActor.init 1 spC cpsC = .ok netCE.actor ∧
    netCE.actor_base = convActLayers 1 idActC supC (1 - 1) ∧
    netCE.baseline_head = convActLayers 1 idActC supC (1 - 1) ++
      [Layer.adaptiveAvgPool2d1, Layer.flatten, Layer.linear ⟨1, 2, [], []⟩]) :=
  ⟨rfl, claim_C3_shared_trunk dilC bmC 1 spC idActC 1 supC supC cpsC [] []
    netCE rfl xC false rngC⟩

theorem logits_to_actions_false_rng (t : Tensor) (r1 r2 : Nat → ℝ) :
    DictActor.logits_to_actions t false r1 = DictActor.logits_to_actions t false r2 := by
  unfold DictActor.logits_to_actions
  split
  · simp
  · rfl

theorem actorStep_false_rng (A : DictActor) (b h w : Nat) (x : Tensor)
    (r1 r2 : Nat → ℝ) (ka : String × Conv2dM) :
    A.actorStep b h w x false r1 ka = A.actorStep b h w x false r2 ka := by
  unfold DictActor.actorStep
  exact Option.bind_congr fun n _ =>
    Option.bind_congr fun aps _ =>
    Option.bind_congr fun l0 _ =>
    Option.bind_congr fun l1 _ =>
    Option.bind_congr fun l2 _ =>
    Option.bind_congr fun fl _ =>
    Option.bind_congr' (logits_to_actions_false_rng fl r1 r2) (fun a _ => rfl)

theorem forwardList_false_rng (A : DictActor) (b h w : Nat) (x : Tensor)
    (r1 r2 : Nat → ℝ) :
    ∀ l, A.forwardList b h w x false r1 l = A.forwardList b h w x false r2 l := by
  intro l
  induction l with
  | nil => rfl
  | cons ka rest ih =>
    unfold DictActor.forwardList
    rw [actorStep_false_rng A b h w x r1 r2 ka]
    simp only [ih]

theorem dictActor_forward_false_rng (A : DictActor) (x : Tensor) (r1 r2 : Nat → ℝ) :
    A.forward x false r1 = A.forward x false r2 := by
  unfold DictActor.forward
  split
  · rw [forwardList_false_rng]
  · rfl

/-- Claim C9: `select_best_actions` is deterministic — its result does not
depend on the random stream, because with `sample=False` every action is
chosen by argmax over the logits and no random draw is consumed anywhere in
the forward pass; `select_best_actions`/`sample_actions` are `forward` with
`sample` fixed to `False`/`True`. -/
theorem claim_C9_select_best_deterministic {α : Type}
    (net : BasicActorCriticNetwork α) (x : α) (r1 r2 : Nat → ℝ) :
    net.select_best_actions x r1 = net.select_best_actions x r2 ∧
    net.select_best_actions x r1 = net.forward x false r1 ∧
    net.sample_actions x r1 = net.forward x true r1 := by
  refine ⟨?_, rfl, rfl⟩
  simp only [BasicActorCriticNetwork.select_best_actions,
    BasicActorCriticNetwork.forward, Option.bind_eq_bind]
  cases runSeq net.actor_base (net.base_model (net.dict_input_layer x)).1 with
  | none => rfl
  | some ai =>
    simp only [Option.some_bind]
    rw [dictActor_forward_false_rng net.actor ai r1 r2]

/-- Claim C10: the forward pass leaves the network's state unchanged.  In the
state-passing embedding of the method call the post-state equals the
pre-state — the Python bodies contain no assignment to `self` — so the
parameters, submodules and stored configuration fields (`n_actions`,
`action_plane_shapes`, `base_out_channels`, the heads) are identical before
and after any call, for both sampling modes, and the returned value is the
pure `forward` result. -/
theorem claim_C10_forward_pure {α : Type} (net : BasicActorCriticNetwork α)
    (x : α) (sample : Bool) (rng : Nat → ℝ) :
    (net.forwardS x sample rng).2 = net ∧
    (net.forwardS x sample rng).2.base_out_channels = net.base_out_channels ∧
    (net.forwardS x sample rng).2.actor.n_actions = net.actor.n_actions ∧
    (net.forwardS x sample rng).2.actor.action_plane_shapes
      = net.actor.action_plane_shapes ∧
    (net.forwardS x sample rng).2.actor.actors = net.actor.actors ∧
    (net.forwardS x sample rng).2.base_model = net.base_model ∧
    (net.forwardS x sample rng).2.actor_base = net.actor_base ∧
    (net.forwardS x sample rng).2.baseline_head = net.baseline_head ∧
    (net.forwardS x sample rng).1 = net.forward x sample rng :=
  ⟨rfl, rfl, rfl, rfl, rfl, rfl, rfl, rfl, rfl⟩
